import Mathlib

/-!
Verification of the symbol-navigation engine in `src-tauri/src/code_navigation.rs`.

Modelling conventions:
* Rust `HashMap` values are modelled extensionally as functions.  The
  `definitions` map never holds an empty vector in any reachable state (the
  code removes an entry as soon as its vector becomes empty), so absence of a
  key is identified with the empty list.  For `file_definitions`, presence of
  a key is observable through `code_nav_get_indexed_files`, so that map is
  modelled as `String → Option (List String)`.
* A Rust `HashSet<String>` is modelled as a duplicate-free `List String`,
  built in first-insertion order.
* `u32` line/column numbers are modelled as `Nat` (the additions `+ 1`
  performed by the code cannot overflow for realistic files, and the claims
  under study do not concern overflow).
* Calls into the tree-sitter library (parser registration, parsing, running
  the definition query) are external to this repository; they enter the model
  as an oracle value `Option (List RawCapture)`: `none` when no parser is
  registered for the language or parsing fails (both make `index_file` return
  after the initial `clear_file`), `some caps` for the list of query captures
  obtained from a successful parse.
-/

/-- Mirror of `SymbolInfo` (code_navigation.rs lines 14-24). -/
structure SymbolInfo where
  name : String
  kind : String
  file_path : String
  lang_family : String
  start_line : Nat
  start_column : Nat
  end_line : Nat
  end_column : Nat
deriving DecidableEq, Repr

/-- Mirror of `SymbolIndex` (lines 26-31): `definitions` maps a symbol name to
its records (absent key ≡ `[]`), `file_definitions` is the reverse index from
file path to the set of names the file defines. -/
structure SymbolIndex where
  definitions : String → List SymbolInfo
  file_definitions : String → Option (List String)

/-- The empty index (`SymbolIndex::default()`). -/
def emptyIndex : SymbolIndex :=
  { definitions := fun _ => [], file_definitions := fun _ => none }

/-- One capture produced by running the definition query of a language over a
parsed tree: captured text, capture tag, and the 0-based start/end
positions of the node. -/
structure RawCapture where
  name : String
  captureName : String
  startRow : Nat
  startCol : Nat
  endRow : Nat
  endCol : Nat
deriving DecidableEq, Repr

/-- Substring containment, modelling Rust `str::contains`. -/
def containsSub (s pat : String) : Bool :=
  s.data.tails.any (fun t => pat.data.isPrefixOf t)

/-- Mirror of `CodeNavigationService::get_symbol_kind` (lines 157-181). -/
def get_symbol_kind (capture_name : String) : String :=
  if containsSub capture_name "function" then "function"
  else if containsSub capture_name "class" then "class"
  else if containsSub capture_name "struct" then "struct"
  else if containsSub capture_name "enum" then "enum"
  else if containsSub capture_name "trait" then "trait"
  else if containsSub capture_name "interface" then "interface"
  else if containsSub capture_name "method" then "method"
  else if containsSub capture_name "type" then "type"
  else if containsSub capture_name "const" then "const"
  else if containsSub capture_name "static" then "static"
  else "symbol"

/-- Mirror of `CodeNavigationService::get_lang_family` (lines 186-196). -/
def get_lang_family (lang_id : String) : String :=
  match lang_id with
  | "c" | "cpp" => "c_family"
  | "typescript" | "javascript" => "js_family"
  | "python" => "python"
  | "rust" => "rust"
  | "go" => "go"
  | "java" => "java"
  | _ => "unknown"

/-- Mirror of `CodeNavigationService::clear_file` (lines 656-668): remove the
reverse-index entry and, for each name it held, drop the records whose
`file_path` matches (the code also deletes a definitions entry that becomes
empty; under the absent-≡-empty convention that is the identity). -/
def clear_file (s : SymbolIndex) (file_path : String) : SymbolIndex :=
  match s.file_definitions file_path with
  | none => s
  | some def_names =>
      { definitions := fun n =>
          if def_names.contains n then
            (s.definitions n).filter (fun r => r.file_path ≠ file_path)
          else s.definitions n,
        file_definitions := fun f => if f = file_path then none else s.file_definitions f }

/-- Mirror of `CodeNavigationService::clear_all` (lines 670-673). -/
def clear_all (_s : SymbolIndex) : SymbolIndex :=
  { definitions := fun _ => [], file_definitions := fun _ => none }

/-- Record built for one capture inside `index_file` (lines 242-251): the
name is the captured text, the kind classifies the capture tag, positions are
converted to 1-based. -/
def mkSymbolInfo (file_path lang_family : String) (c : RawCapture) : SymbolInfo :=
  { name := c.name
    kind := get_symbol_kind c.captureName
    file_path := file_path
    lang_family := lang_family
    start_line := c.startRow + 1
    start_column := c.startCol + 1
    end_line := c.endRow + 1
    end_column := c.endCol + 1 }

/-- The `defined_names` set accumulated capture by capture (line 252),
as a duplicate-free list in first-insertion order. -/
def captureNames (caps : List RawCapture) : List String :=
  caps.foldl (fun acc c => if acc.contains c.name then acc else acc ++ [c.name]) []

/-- One `definitions.entry(name).or_default().push(symbol)` step (lines 264-270). -/
def pushSymbol (d : String → List SymbolInfo) (sym : SymbolInfo) : String → List SymbolInfo :=
  fun n => if n = sym.name then d n ++ [sym] else d n

/-- Insertion of the extracted definitions of one file into the index: lines
257-270 of `index_file`, duplicated verbatim in the merge phase of
`code_nav_index_files_batch` (lines 825-840).  The reverse-index entry is
written only when the name set is non-empty. -/
def applyDefinitions (s : SymbolIndex) (file_path : String)
    (defs : List SymbolInfo) (defined_names : List String) : SymbolIndex :=
  let s1 : SymbolIndex :=
    if defined_names.isEmpty then s
    else { s with file_definitions :=
            fun f => if f = file_path then some defined_names else s.file_definitions f }
  { s1 with definitions := defs.foldl pushSymbol s1.definitions }

/-- Mirror of `CodeNavigationService::index_file` (lines 198-279).  `parsed`
is the tree-sitter oracle: `none` when no parser is registered or the parse
fails (the code returns right after `clear_file`), `some caps` for the
captures of the definition query. -/
def index_file (s : SymbolIndex) (file_path : String) (lang_id : String)
    (parsed : Option (List RawCapture)) : SymbolIndex :=
  let cleared := clear_file s file_path
  match parsed with
  | none => cleared
  | some caps =>
      let lang_family := get_lang_family lang_id
      let definitions := caps.map (mkSymbolInfo file_path lang_family)
      let defined_names := captureNames caps
      applyDefinitions cleared file_path definitions defined_names

/-- Mirror of `CodeNavigationService::find_definition` (lines 281-293). -/
def find_definition (s : SymbolIndex) (symbol_name lang_family : String) : List SymbolInfo :=
  (s.definitions symbol_name).filter (fun r => r.lang_family = lang_family)

/-- Mirror of `code_nav_index_files_batch` (lines 748-852): phase 1 maps each
`(file_path, content, lang_id)` triple to its extracted
`(definitions, defined_names, file_path)` tuple, skipping files whose
language is unknown or whose parse/query fails (`parse` returning `none`);
phase 2 folds `clear_file` plus the insertion block over the tuples in phase-1
order. -/
def code_nav_index_files_batch (s : SymbolIndex)
    (files : List (String × String × String))
    (parse : String × String × String → Option (List RawCapture)) : SymbolIndex :=
  let def_results : List (List SymbolInfo × List String × String) :=
    files.filterMap (fun t =>
      match parse t with
      | none => none
      | some caps =>
          let lang_family := get_lang_family t.2.2
          some (caps.map (mkSymbolInfo t.1 lang_family), captureNames caps, t.1))
  def_results.foldl (fun st r => applyDefinitions (clear_file st r.2.2) r.2.2 r.1 r.2.1) s

/-- Whether `file_path` would be listed by `code_nav_get_indexed_files`
(lines 1069-1080), i.e. whether the reverse index has an entry for it. -/
def isIndexedFile (s : SymbolIndex) (file_path : String) : Bool :=
  (s.file_definitions file_path).isSome

/-- Whether name `n` belongs to the reverse-index entry of file `f`. -/
def hasFileName (s : SymbolIndex) (f n : String) : Bool :=
  match s.file_definitions f with
  | some names => names.contains n
  | none => false

/-- The dual-map consistency invariant: every name listed for a file has a
record with that `file_path` in `definitions`, and the `file_path` of every record
is listed under the bucket name of the record in the reverse index. -/
def Consistent (s : SymbolIndex) : Prop :=
  ∀ f n : String,
    (hasFileName s f n = true → ∃ r, r ∈ s.definitions n ∧ r.file_path = f) ∧
    (∀ r, r ∈ s.definitions n → r.file_path = f → hasFileName s f n = true)

/-- One mutating call on the index, with tree-sitter outcomes supplied as
oracles. -/
inductive NavOp where
  | opIndexFile (file_path lang_id : String) (parsed : Option (List RawCapture))
  | opIndexBatch (files : List (String × String × String))
      (parse : String × String × String → Option (List RawCapture))
  | opClearFile (file_path : String)
  | opClearAll

/-- Apply one operation to the index. -/
def applyOp (s : SymbolIndex) : NavOp → SymbolIndex
  | .opIndexFile fp lid parsed => index_file s fp lid parsed
  | .opIndexBatch files parse => code_nav_index_files_batch s files parse
  | .opClearFile fp => clear_file s fp
  | .opClearAll => clear_all s

/-- Run a sequence of operations from a starting index. -/
def runOps (s : SymbolIndex) : List NavOp → SymbolIndex
  | [] => s
  | op :: rest => runOps (applyOp s op) rest

/-!
Persistence layer (code_navigation.rs lines 854-1017).  The on-disk index
directory is modelled as a store mapping file keys (the hash-derived file
name) to file contents; a present file either deserializes to a
`PersistedIndex` or is malformed.  The project-path hash is an arbitrary
function parameter `hashFn` (the code uses truncated SHA-256; the claims do
not depend on its definition).
-/

/-- Mirror of `INDEX_VERSION` (line 860). -/
def INDEX_VERSION : Nat := 2

/-- Mirror of `PersistedIndex` (lines 863-871), with the two index maps in
the same extensional representation as `SymbolIndex`. -/
structure PersistedIndex where
  version : Nat
  root_path : String
  last_updated : Int
  file_timestamps : String → Option Int
  definitions : String → List SymbolInfo
  file_definitions : String → Option (List String)

/-- The index directory: key (file name derived from the root-path hash) to
file content; `some none` is a file that exists but fails to deserialize. -/
def Store := String → Option (Option PersistedIndex)

/-- Mirror of `code_nav_save_index` (lines 911-956), success path: build the
`PersistedIndex` snapshot of the current maps and write it at the key
`hashFn root_path`. -/
def code_nav_save_index (hashFn : String → String) (s : SymbolIndex)
    (root_path : String) (file_timestamps : String → Option Int) (now : Int)
    (store : Store) : Store :=
  let persisted : PersistedIndex :=
    { version := INDEX_VERSION
      root_path := root_path
      last_updated := now
      file_timestamps := file_timestamps
      definitions := s.definitions
      file_definitions := s.file_definitions }
  fun k => if k = hashFn root_path then some (some persisted) else store k

/-- Mirror of `code_nav_load_index` (lines 959-1017): absent file → `ok false`
leaving everything unchanged; undeserializable file → error; version mismatch
→ `ok false` deleting the file; root-path mismatch → `ok false` keeping the
file; otherwise `ok true` replacing both maps (the code runs `clear_all` and
then assigns both maps from the snapshot). -/
def code_nav_load_index (hashFn : String → String) (s : SymbolIndex)
    (root_path : String) (store : Store) :
    Except String (Bool × SymbolIndex × Store) :=
  match store (hashFn root_path) with
  | none => .ok (false, s, store)
  | some none => .error "Failed to deserialize index"
  | some (some persisted) =>
      if persisted.version ≠ INDEX_VERSION then
        .ok (false, s, fun k => if k = hashFn root_path then none else store k)
      else if persisted.root_path ≠ root_path then
        .ok (false, s, store)
      else
        .ok (true,
             { definitions := persisted.definitions
               file_definitions := persisted.file_definitions },
             store)

/-!
Reference search (code_navigation.rs lines 295-490 and search.rs).  The text
search collaborator and the filesystem enter as oracles: `searchOutcome` is
the `Result` of `RipgrepSearch::search_content`, `readFile` models
`fs::read_to_string`, and `parseOracle` maps file content to its tree-sitter
parse tree (`none` on parser-construction or parse failure).
-/

/-- Mirror of `SearchMatch` (search.rs lines 14-18). -/
structure SearchMatch where
  line_number : Nat
  line_content : String
  byte_offset : Nat
deriving DecidableEq, Repr

/-- Mirror of `SearchResult` (search.rs lines 20-24). -/
structure SearchResult where
  file_path : String
  «matches» : List SearchMatch
deriving DecidableEq, Repr

/-- Mirror of `CodeNavigationService::get_lang_id_from_path` (lines 398-412):
the extension is the text after the last dot (Rust `rsplit('.').next()`,
which yields the whole path when it has no dot). -/
def get_lang_id_from_path (file_path : String) : Option String :=
  let ext := (file_path.splitOn ".").getLastD file_path
  match ext.toLower with
  | "py" => some "python"
  | "rs" => some "rust"
  | "go" => some "go"
  | "c" | "h" => some "c"
  | "cpp" | "cc" | "cxx" | "hpp" | "hxx" => some "cpp"
  | "java" => some "java"
  | "ts" | "tsx" => some "typescript"
  | "js" | "jsx" | "mjs" | "cjs" => some "javascript"
  | _ => none

/-!
Tree-sitter syntax trees (an external library) are modelled as flat node
lists in pre-order, children in positional order, each node carrying its
kind, byte span, 0-based point span, the id of the parent and its field name in
the parent.  This is the node interface `is_valid_reference_node` and
`validate_reference_at_line` consume (`kind`, `utf8_text`, `parent`,
`child_by_field_name`, `child(0)`, `id`, `descendant_for_point_range`).
-/

/-- One syntax-tree node. -/
structure TSNode where
  id : Nat
  parentId : Option Nat
  fieldName : Option String
  kind : String
  startByte : Nat
  endByte : Nat
  startRow : Nat
  startCol : Nat
  endRow : Nat
  endCol : Nat
deriving DecidableEq, Repr

/-- A tree is its node list, root first, children in source order. -/
def TSTree := List TSNode

/-- Node text (`Node::utf8_text`): the byte span of the source; all concrete
sources used here are ASCII, so bytes coincide with characters. -/
def nodeText (source : String) (nd : TSNode) : String :=
  String.mk ((source.data.drop nd.startByte).take (nd.endByte - nd.startByte))

/-- Parent lookup (`Node::parent`). -/
def nodeParent (t : TSTree) (n : TSNode) : Option TSNode :=
  n.parentId.bind (fun i => List.find? (fun nd => nd.id == i) t)

/-- Chain of ancestors of a node, nearest first, fuel-bounded by tree size. -/
def ancestorChain (t : TSTree) : Nat → Option Nat → List TSNode
  | 0, _ => []
  | _ + 1, none => []
  | fuel + 1, some i =>
      match List.find? (fun nd => nd.id == i) t with
      | none => []
      | some p => p :: ancestorChain t fuel p.parentId

/-- All strict ancestors of `n` in `t`. -/
def ancestors (t : TSTree) (n : TSNode) : List TSNode :=
  ancestorChain t (List.length t + 1) n.parentId

/-- First child of `p` carrying field name `f` (`Node::child_by_field_name`). -/
def childByField (t : TSTree) (p : TSNode) (f : String) : Option TSNode :=
  List.find? (fun c => c.parentId == some p.id && c.fieldName == some f) t

/-- First child of `p` in source order (`Node::child(0)`). -/
def firstChild (t : TSTree) (p : TSNode) : Option TSNode :=
  List.find? (fun c => c.parentId == some p.id) t

/-- Lexicographic order on 0-based points. -/
def pointLeq (a b : Nat × Nat) : Bool :=
  a.1 < b.1 || (a.1 == b.1 && a.2 ≤ b.2)

/-- Strict lexicographic order on 0-based points. -/
def pointLt (a b : Nat × Nat) : Bool :=
  a.1 < b.1 || (a.1 == b.1 && a.2 < b.2)

/-- Containment test used when descending for a zero-width point range: the
start of the node must not exceed the point and its end must strictly exceed it
(tree-sitter skips a child whose end equals the range start, so a boundary
point belongs to the following sibling). -/
def nodeContainsPoint (nd : TSNode) (p : Nat × Nat) : Bool :=
  pointLeq (nd.startRow, nd.startCol) p && pointLt p (nd.endRow, nd.endCol)

/-- Descend from `nd` to the smallest node containing point `p`. -/
def descendGo (t : TSTree) : Nat → TSNode → Nat × Nat → TSNode
  | 0, nd, _ => nd
  | fuel + 1, nd, p =>
      match List.find? (fun c => c.parentId == some nd.id && nodeContainsPoint c p) t with
      | some c => descendGo t fuel c p
      | none => nd

/-- Smallest node of the tree covering the zero-width point range at `p`
(`root_node().descendant_for_point_range(p, p)`). -/
def descendant_for_point_range (t : TSTree) (p : Nat × Nat) : Option TSNode :=
  match List.find? (fun nd => nd.parentId == none) t with
  | none => none
  | some root => some (descendGo t (List.length t) root p)

/-- Identifier-like node kinds accepted per language (lines 511-517). -/
def valid_kinds (lang_id : String) : List String :=
  match lang_id with
  | "typescript" | "javascript" => ["identifier", "type_identifier", "property_identifier"]
  | "go" => ["identifier", "type_identifier", "field_identifier"]
  | _ => ["identifier", "type_identifier"]

/-- Ancestor kinds rejected as string or comment contexts (lines 522-541). -/
def isStringOrCommentKind (kind : String) : Bool :=
  kind == "string" || kind == "template_string" || kind == "string_literal" ||
  kind == "string_content" || kind == "interpreted_string_literal" ||
  kind == "raw_string_literal" ||
  kind == "comment" || kind == "line_comment" || kind == "block_comment"

/-- Whether `node` fills field `f` of `p` (the repeated
`child_by_field_name(..) .id() == node.id()` pattern). -/
def fieldChildIs (t : TSTree) (p : TSNode) (f : String) (node : TSNode) : Bool :=
  match childByField t p f with
  | some c => c.id == node.id
  | none => false

/-- Check 4 of `is_valid_reference_node` (lines 543-591): the member name of
a property/field/attribute/selector access. -/
def rejectedAsMemberName (t : TSTree) (node : TSNode) (lang_id : String) : Bool :=
  match nodeParent t node with
  | none => false
  | some p =>
      (p.kind == "member_expression" && fieldChildIs t p "property" node) ||
      (p.kind == "attribute" && lang_id == "python" && fieldChildIs t p "attribute" node) ||
      (p.kind == "field_expression" && lang_id == "rust" && fieldChildIs t p "field" node) ||
      (p.kind == "selector_expression" && lang_id == "go" && fieldChildIs t p "field" node) ||
      (p.kind == "field_access" && fieldChildIs t p "field" node)

/-- Check 5 of `is_valid_reference_node` (lines 593-638): object-literal
keys, shorthand properties, keyed elements and struct-literal field names. -/
def rejectedAsObjectKey (t : TSTree) (node : TSNode) (lang_id : String) : Bool :=
  match nodeParent t node with
  | none => false
  | some p =>
      (p.kind == "pair" && fieldChildIs t p "key" node) ||
      (p.kind == "shorthand_property_identifier") ||
      (p.kind == "pair" && lang_id == "python" && fieldChildIs t p "key" node) ||
      (p.kind == "keyed_element" && lang_id == "go" &&
        (match firstChild t p with
         | some k => k.id == node.id
         | none => false)) ||
      (p.kind == "field_initializer" && lang_id == "rust" && fieldChildIs t p "name" node)

/-- Check 6 of `is_valid_reference_node` (lines 640-651): the pre-alias name
of an import specifier. -/
def rejectedAsImportName (t : TSTree) (node : TSNode) : Bool :=
  match nodeParent t node with
  | none => false
  | some p => p.kind == "import_specifier" && fieldChildIs t p "name" node

/-- Mirror of `CodeNavigationService::is_valid_reference_node`
(lines 494-654). -/
def is_valid_reference_node (t : TSTree) (node : TSNode) (symbol_name : String)
    (source : String) (lang_id : String) : Bool :=
  if nodeText source node ≠ symbol_name then false
  else if !((valid_kinds lang_id).contains node.kind) then false
  else if (ancestors t node).any (fun p => isStringOrCommentKind p.kind) then false
  else if rejectedAsMemberName t node lang_id then false
  else if rejectedAsObjectKey t node lang_id then false
  else if rejectedAsImportName t node then false
  else true

/-- Non-overlapping leftmost occurrences of `pat` in `hay` with their start
indices (Rust `str::match_indices`), fuel-bounded. -/
def matchIndicesGo (pat : List Char) : Nat → List Char → Nat → List Nat
  | 0, _, _ => []
  | _ + 1, [], _ => []
  | fuel + 1, c :: rest, i =>
      if pat.isPrefixOf (c :: rest) then
        let step := max 1 pat.length
        i :: matchIndicesGo pat fuel (List.drop step (c :: rest)) (i + step)
      else matchIndicesGo pat fuel rest (i + 1)

/-- Start indices of the matches of `pat` in `hay`. -/
def matchIndices (hay pat : List Char) : List Nat :=
  matchIndicesGo pat (hay.length + 1) hay 0

/-- The `line_start` scan of `validate_reference_at_line` (lines 428-439):
walk the source, breaking at the first byte index on the requested line;
`line_start` keeps its initial value 0 if the loop never breaks. -/
def lineStartLoop (line_idx : Nat) : List Char → Nat → Nat → Nat
  | [], _, _ => 0
  | c :: rest, i, current_line =>
      if current_line = line_idx then i
      else lineStartLoop line_idx rest (i + 1)
        (if c = '\n' then current_line + 1 else current_line)

/-- Word-boundary test on the byte before / after an occurrence
(lines 455-467): out of range counts as a boundary, otherwise the byte must
not be ASCII-alphanumeric and not an underscore. -/
def boundaryOk (line_content : List Char) (idx : Nat) (atStart : Bool) : Bool :=
  if atStart then
    match line_content.get? idx with
    | some c => !(c.isAlphanum) && c ≠ '_'
    | none => true
  else
    if idx ≥ line_content.length then true
    else match line_content.get? idx with
      | some c => !(c.isAlphanum) && c ≠ '_'
      | none => true

/-- Mirror of `CodeNavigationService::validate_reference_at_line`
(lines 415-490). -/
def validate_reference_at_line (t : TSTree) (source : String) (line_number : Nat)
    (symbol_name lang_id file_path lang_family : String) : List SymbolInfo :=
  let line_idx := line_number - 1
  let src := source.data
  let line_start := lineStartLoop line_idx src 0 0
  let line_end :=
    match (src.drop line_start).findIdx? (fun c => c == '\n') with
    | some pos => line_start + pos
    | none => src.length
  let line_content := (src.drop line_start).take (line_end - line_start)
  (matchIndices line_content symbol_name.data).filterMap (fun col =>
    let before_ok := col == 0 || boundaryOk line_content (col - 1) true
    let after_idx := col + symbol_name.length
    let after_ok := boundaryOk line_content after_idx false
    if !before_ok || !after_ok then none
    else
      match descendant_for_point_range t (line_idx, col) with
      | none => none
      | some node =>
          if is_valid_reference_node t node symbol_name source lang_id then
            some { name := symbol_name
                   kind := "reference"
                   file_path := file_path
                   lang_family := lang_family
                   start_line := line_number
                   start_column := col + 1
                   end_line := line_number
                   end_column := col + 1 + symbol_name.length }
          else none)

/-- Mirror of `CodeNavigationService::find_references_hybrid`
(lines 298-396).  `searchOutcome` is the result of
`RipgrepSearch::search_content` on the word-boundary pattern for
`symbol_name`; on error the function logs and returns the empty list.  For
each surviving file the language is derived from the extension, files of a
different family are skipped, the content is read (`readFile`) and parsed
(`parseOracle`), and every reported match line is validated. -/
def find_references_hybrid (symbol_name lang_family : String)
    (searchOutcome : Except String (List SearchResult))
    (readFile : String → Option String)
    (parseOracle : String → Option TSTree) : List SymbolInfo :=
  match searchOutcome with
  | .error _ => []
  | .ok search_results =>
      search_results.foldl (fun references result =>
        match get_lang_id_from_path result.file_path with
        | none => references
        | some lang_id =>
            if get_lang_family lang_id ≠ lang_family then references
            else
              match readFile result.file_path with
              | none => references
              | some content =>
                  match parseOracle content with
                  | none => references
                  | some tree =>
                      references ++ result.«matches».foldl (fun acc m =>
                        acc ++ validate_reference_at_line tree content m.line_number
                          symbol_name lang_id result.file_path lang_family) []) []

/-- Mirror of the Tauri command `code_nav_find_references_hybrid`
(lines 708-720): takes a read lock, calls the service method and wraps the
result in `Ok`; the service state is untouched (the method takes `&self`). -/
def code_nav_find_references_hybrid (s : SymbolIndex) (symbol_name lang_family : String)
    (searchOutcome : Except String (List SearchResult))
    (readFile : String → Option String)
    (parseOracle : String → Option TSTree) :
    Except String (List SymbolInfo) × SymbolIndex :=
  (.ok (find_references_hybrid symbol_name lang_family searchOutcome readFile parseOracle), s)

/-!
Concrete syntax trees for the reference-validation scenarios, transcribed
from the tree-sitter TSX grammar parses of the three one-line programs.
All nodes are on row 0, so byte offsets and columns coincide.
-/

/-- Build a row-0 node from its id, parent id, field name, kind and byte span. -/
def mkNode0 (id : Nat) (pid : Option Nat) (fld : Option String) (kind : String)
    (sb eb : Nat) : TSNode :=
  { id := id, parentId := pid, fieldName := fld, kind := kind
    startByte := sb, endByte := eb
    startRow := 0, startCol := sb, endRow := 0, endCol := eb }

/-- Scenario 1 source. -/
def srcConstFoo : String := "const foo = \"foo is here\";"

/-- TSX parse of `const foo = "foo is here";`. -/
def treeConstFoo : TSTree :=
  [ mkNode0 0 none none "program" 0 26
  , mkNode0 1 (some 0) none "lexical_declaration" 0 26
  , mkNode0 2 (some 1) none "const" 0 5
  , mkNode0 3 (some 1) none "variable_declarator" 6 25
  , mkNode0 4 (some 3) (some "name") "identifier" 6 9
  , mkNode0 5 (some 3) none "=" 10 11
  , mkNode0 6 (some 3) (some "value") "string" 12 25
  , mkNode0 7 (some 6) none "\"" 12 13
  , mkNode0 8 (some 6) none "string_fragment" 13 24
  , mkNode0 9 (some 6) none "\"" 24 25
  , mkNode0 10 (some 1) none ";" 25 26 ]

/-- Scenario 2 source. -/
def srcObjValue : String := "obj.value = value;"

/-- TSX parse of `obj.value = value;`. -/
def treeObjValue : TSTree :=
  [ mkNode0 0 none none "program" 0 18
  , mkNode0 1 (some 0) none "expression_statement" 0 18
  , mkNode0 2 (some 1) none "assignment_expression" 0 17
  , mkNode0 3 (some 2) (some "left") "member_expression" 0 9
  , mkNode0 4 (some 3) (some "object") "identifier" 0 3
  , mkNode0 5 (some 3) none "." 3 4
  , mkNode0 6 (some 3) (some "property") "property_identifier" 4 9
  , mkNode0 7 (some 2) none "=" 10 11
  , mkNode0 8 (some 2) (some "right") "identifier" 12 17
  , mkNode0 9 (some 1) none ";" 17 18 ]

/-- Scenario 3 source. -/
def srcImportRenamed : String := "import { original as renamed } from \"x\"; renamed();"

/-- TSX parse of `import { original as renamed } from "x"; renamed();`. -/
def treeImportRenamed : TSTree :=
  [ mkNode0 0 none none "program" 0 51
  , mkNode0 1 (some 0) none "import_statement" 0 40
  , mkNode0 2 (some 1) none "import" 0 6
  , mkNode0 3 (some 1) none "import_clause" 7 30
  , mkNode0 4 (some 3) none "named_imports" 7 30
  , mkNode0 5 (some 4) none "\x7b" 7 8
  , mkNode0 6 (some 4) none "import_specifier" 9 28
  , mkNode0 7 (some 6) (some "name") "identifier" 9 17
  , mkNode0 8 (some 6) none "as" 18 20
  , mkNode0 9 (some 6) (some "alias") "identifier" 21 28
  , mkNode0 10 (some 4) none "\x7d" 29 30
  , mkNode0 11 (some 1) none "from" 31 35
  , mkNode0 12 (some 1) (some "source") "string" 36 39
  , mkNode0 13 (some 12) none "\"" 36 37
  , mkNode0 14 (some 12) none "string_fragment" 37 38
  , mkNode0 15 (some 12) none "\"" 38 39
  , mkNode0 16 (some 1) none ";" 39 40
  , mkNode0 17 (some 0) none "expression_statement" 41 51
  , mkNode0 18 (some 17) none "call_expression" 41 50
  , mkNode0 19 (some 18) (some "function") "identifier" 41 48
  , mkNode0 20 (some 18) (some "arguments") "arguments" 48 50
  , mkNode0 21 (some 20) none "(" 48 49
  , mkNode0 22 (some 20) none ")" 49 50
  , mkNode0 23 (some 17) none ";" 50 51 ]

/-!
Helper lemmas about the index operations.
-/

/-- Membership form of `List.contains` for types with lawful `BEq`. -/
theorem contains_iff_mem {α : Type} [BEq α] [LawfulBEq α] (l : List α) (a : α) :
    l.contains a = true ↔ a ∈ l := by
  simp [List.contains_iff_exists_mem_beq]

/-- Folding `pushSymbol` appends, bucket by bucket, the pushed records whose
name matches the bucket. -/
theorem pushSymbols_eq (defs : List SymbolInfo) (d : String → List SymbolInfo) (n : String) :
    (defs.foldl pushSymbol d) n = d n ++ defs.filter (fun r => r.name = n) := by
  induction defs generalizing d with
  | nil => simp
  | cons sym rest ih =>
      rw [List.foldl_cons, ih, List.filter_cons]
      by_cases h : sym.name = n
      · simp [pushSymbol, h, List.append_assoc]
      · have h2 : ¬(n = sym.name) := fun hx => h hx.symm
        simp [pushSymbol, h, h2]

/-- A name is collected by `captureNames` exactly when some capture bears it. -/
theorem captureNames_aux (caps : List RawCapture) (acc : List String) (n : String) :
    ((caps.foldl (fun acc c => if acc.contains c.name then acc else acc ++ [c.name]) acc).contains n = true)
      ↔ (acc.contains n = true ∨ ∃ c ∈ caps, c.name = n) := by
  induction caps generalizing acc with
  | nil => simp
  | cons c rest ih =>
      rw [List.foldl_cons, ih]
      constructor
      · rintro (h | h)
        · by_cases hc : acc.contains c.name = true
          · rw [if_pos hc] at h
            exact Or.inl h
          · rw [if_neg hc] at h
            rw [contains_iff_mem, List.mem_append] at h
            rcases h with h | h
            · exact Or.inl ((contains_iff_mem acc n).mpr h)
            · simp at h
              exact Or.inr ⟨c, List.mem_cons_self c rest, h.symm⟩
        · exact Or.inr (h.imp (fun x hx => ⟨List.mem_cons_of_mem c hx.1, hx.2⟩))
      · rintro (h | ⟨c2, hc2, hn⟩)
        · left
          by_cases hc : acc.contains c.name = true
          · rwa [if_pos hc]
          · rw [if_neg hc, contains_iff_mem, List.mem_append]
            exact Or.inl ((contains_iff_mem acc n).mp h)
        · rcases List.mem_cons.mp hc2 with rfl | hc2
          · left
            by_cases hc : acc.contains c2.name = true
            · rw [if_pos hc]
              rwa [hn] at hc
            · rw [if_neg hc, contains_iff_mem, List.mem_append]
              exact Or.inr (by simp [hn])
          · exact Or.inr ⟨c2, hc2, hn⟩

/-- Specialisation of `captureNames_aux` to the empty accumulator. -/
theorem captureNames_contains (caps : List RawCapture) (n : String) :
    ((captureNames caps).contains n = true) ↔ ∃ c ∈ caps, c.name = n := by
  rw [captureNames, captureNames_aux]
  simp

/-- If no capture exists, `captureNames` is empty; conversely a capture
forces it non-empty. -/
theorem captureNames_eq_nil (caps : List RawCapture) :
    captureNames caps = [] ↔ caps = [] := by
  constructor
  · intro h
    cases caps with
    | nil => rfl
    | cons c rest =>
        have : ((captureNames (c :: rest)).contains c.name = true) :=
          (captureNames_contains _ _).mpr ⟨c, List.mem_cons_self c rest, rfl⟩
        rw [h] at this
        simp at this
  · rintro rfl
    rfl

/-- The reverse index after `clear_file`. -/
theorem clear_file_fdefs (s : SymbolIndex) (fp f : String) :
    (clear_file s fp).file_definitions f
      = if f = fp then none else s.file_definitions f := by
  unfold clear_file
  cases h : s.file_definitions fp with
  | none =>
      by_cases hf : f = fp
      · subst hf
        simp [h]
      · simp [hf]
  | some names => simp

/-- `clear_file` never invents records. -/
theorem clear_file_defs_subset (s : SymbolIndex) (fp n : String) (r : SymbolInfo) :
    r ∈ (clear_file s fp).definitions n → r ∈ s.definitions n := by
  unfold clear_file
  cases h : s.file_definitions fp with
  | none => exact id
  | some names =>
      simp only
      by_cases hc : names.contains n = true
      · rw [if_pos hc]
        exact List.mem_of_mem_filter
      · rw [if_neg hc]
        exact id

/-- Records that survive `clear_file` and do not belong to the cleared file
were already present. -/
theorem clear_file_defs_keep (s : SymbolIndex) (fp n : String) (r : SymbolInfo)
    (hr : r ∈ s.definitions n) (hne : r.file_path ≠ fp) :
    r ∈ (clear_file s fp).definitions n := by
  unfold clear_file
  cases h : s.file_definitions fp with
  | none => exact hr
  | some names =>
      simp only
      by_cases hc : names.contains n = true
      · rw [if_pos hc]
        exact List.mem_filter.mpr ⟨hr, by simpa using hne⟩
      · rw [if_neg hc]
        exact hr

/-- `clear_file` preserves the dual-map invariant. -/
theorem consistent_clear_file {s : SymbolIndex} (hs : Consistent s) (fp : String) :
    Consistent (clear_file s fp) := by
  intro f n
  constructor
  · intro h1
    have hf : f ≠ fp := by
      intro hx
      rw [hasFileName, clear_file_fdefs, if_pos hx] at h1
      cases h1
    rw [hasFileName, clear_file_fdefs, if_neg hf] at h1
    obtain ⟨r, hr, hrf⟩ := (hs f n).1 (by rw [hasFileName]; exact h1)
    exact ⟨r, clear_file_defs_keep s fp n r hr (by rw [hrf]; exact hf), hrf⟩
  · intro r hr hrf
    have hmem := clear_file_defs_subset s fp n r hr
    by_cases hf : f = fp
    · subst hf
      exfalso
      unfold clear_file at hr
      cases h : s.file_definitions f with
      | none =>
          rw [h] at hr
          have := (hs f n).2 r hr hrf
          rw [hasFileName, h] at this
          cases this
      | some names =>
          rw [h] at hr
          simp only at hr
          by_cases hc : names.contains n = true
          · rw [if_pos hc] at hr
            have := (List.mem_filter.mp hr).2
            simp [hrf] at this
          · rw [if_neg hc] at hr
            have := (hs f n).2 r hr hrf
            rw [hasFileName, h] at this
            exact hc this
    · rw [hasFileName, clear_file_fdefs, if_neg hf]
      have := (hs f n).2 r hmem hrf
      rwa [hasFileName] at this

/-- After `clear_file s fp` no record of file `fp` survives anywhere,
provided the invariant held. -/
theorem clear_file_no_records {s : SymbolIndex} (hs : Consistent s) (fp n : String)
    (r : SymbolInfo) (hr : r ∈ (clear_file s fp).definitions n) : r.file_path ≠ fp := by
  intro hx
  have := (consistent_clear_file hs fp fp n).2 r hr hx
  rw [hasFileName, clear_file_fdefs, if_pos rfl] at this
  cases this

/-- `hasFileName` through `Option.elim`, convenient for rewriting. -/
theorem hasFileName_elim (s : SymbolIndex) (f n : String) :
    hasFileName s f n = (s.file_definitions f).elim false (fun names => names.contains n) := by
  unfold hasFileName
  cases s.file_definitions f <;> rfl

/-- Reverse index after `applyDefinitions`. -/
theorem applyDefinitions_fdefs (s : SymbolIndex) (fp : String)
    (defs : List SymbolInfo) (names : List String) :
    (applyDefinitions s fp defs names).file_definitions
      = if names.isEmpty then s.file_definitions
        else fun f => if f = fp then some names else s.file_definitions f := by
  unfold applyDefinitions
  by_cases h : names.isEmpty <;> simp [h]

/-- Definitions map after `applyDefinitions`. -/
theorem applyDefinitions_defs (s : SymbolIndex) (fp : String)
    (defs : List SymbolInfo) (names : List String) (n : String) :
    (applyDefinitions s fp defs names).definitions n
      = s.definitions n ++ defs.filter (fun r => r.name = n) := by
  unfold applyDefinitions
  by_cases h : names.isEmpty <;> simp [h, pushSymbols_eq]

/-- `index_file` on a successful parse, unfolded to its two phases. -/
theorem index_file_some (s : SymbolIndex) (fp lid : String) (caps : List RawCapture) :
    index_file s fp lid (some caps)
      = applyDefinitions (clear_file s fp) fp
          (caps.map (mkSymbolInfo fp (get_lang_family lid))) (captureNames caps) := rfl

/-- `index_file` when no parser exists or parsing fails. -/
theorem index_file_none (s : SymbolIndex) (fp lid : String) :
    index_file s fp lid none = clear_file s fp := rfl

/-- `index_file` preserves the dual-map invariant. -/
theorem consistent_index_file {s : SymbolIndex} (hs : Consistent s) (fp lid : String)
    (parsed : Option (List RawCapture)) : Consistent (index_file s fp lid parsed) := by
  cases parsed with
  | none => exact consistent_clear_file hs fp
  | some caps =>
      have hs' := consistent_clear_file hs fp
      by_cases hni : (captureNames caps).isEmpty = true
      · have hcaps : caps = [] := (captureNames_eq_nil caps).mp (List.isEmpty_iff.mp hni)
        subst hcaps
        have e1 : ∀ f, (index_file s fp lid (some [])).file_definitions f
            = (clear_file s fp).file_definitions f := by
          intro f
          rw [index_file_some, applyDefinitions_fdefs, if_pos hni]
        have e2 : ∀ m, (index_file s fp lid (some [])).definitions m
            = (clear_file s fp).definitions m := by
          intro m
          rw [index_file_some, applyDefinitions_defs]
          simp
        have hhf : ∀ f n, hasFileName (index_file s fp lid (some [])) f n
            = hasFileName (clear_file s fp) f n := by
          intro f n
          rw [hasFileName_elim, hasFileName_elim, e1]
        intro f n
        constructor
        · intro h1
          rw [hhf] at h1
          obtain ⟨r, hr, hrf⟩ := (hs' f n).1 h1
          exact ⟨r, by rw [e2]; exact hr, hrf⟩
        · intro r hr hrf
          rw [e2] at hr
          rw [hhf]
          exact (hs' f n).2 r hr hrf
      · have e1 : ∀ f, (index_file s fp lid (some caps)).file_definitions f
            = if f = fp then some (captureNames caps)
              else (clear_file s fp).file_definitions f := by
          intro f
          rw [index_file_some, applyDefinitions_fdefs, if_neg hni]
        have e2 : ∀ m, (index_file s fp lid (some caps)).definitions m
            = (clear_file s fp).definitions m
              ++ (caps.map (mkSymbolInfo fp (get_lang_family lid))).filter
                   (fun r => r.name = m) := by
          intro m
          rw [index_file_some, applyDefinitions_defs]
        intro f n
        by_cases hf : f = fp
        · subst hf
          constructor
          · intro h1
            rw [hasFileName_elim, e1, if_pos rfl] at h1
            simp only [Option.elim] at h1
            obtain ⟨c, hc, hcn⟩ := (captureNames_contains caps n).mp h1
            refine ⟨mkSymbolInfo f (get_lang_family lid) c, ?_, rfl⟩
            rw [e2]
            refine List.mem_append_right _ (List.mem_filter.mpr ⟨List.mem_map_of_mem _ hc, ?_⟩)
            simp [mkSymbolInfo, hcn]
          · intro r hr hrf
            rw [e2] at hr
            rcases List.mem_append.mp hr with hl | hrt
            · exact absurd hrf (clear_file_no_records hs f n r hl)
            · have h2 := List.mem_filter.mp hrt
              obtain ⟨c, hc, hcr⟩ := List.mem_map.mp h2.1
              rw [hasFileName_elim, e1, if_pos rfl]
              simp only [Option.elim]
              refine (captureNames_contains caps n).mpr ⟨c, hc, ?_⟩
              have hname : r.name = n := by simpa using h2.2
              rw [← hname, ← hcr]
              rfl
        · constructor
          · intro h1
            rw [hasFileName_elim, e1, if_neg hf, ← hasFileName_elim] at h1
            obtain ⟨r, hr, hrf⟩ := (hs' f n).1 h1
            refine ⟨r, ?_, hrf⟩
            rw [e2]
            exact List.mem_append_left _ hr
          · intro r hr hrf
            rw [e2] at hr
            rcases List.mem_append.mp hr with hl | hrt
            · rw [hasFileName_elim, e1, if_neg hf, ← hasFileName_elim]
              exact (hs' f n).2 r hl hrf
            · exfalso
              have h2 := List.mem_filter.mp hrt
              obtain ⟨c, hc, hcr⟩ := List.mem_map.mp h2.1
              exact hf (by rw [← hrf, ← hcr]; rfl)

/-- A batch step whose parse fails contributes nothing (the file is skipped
entirely, without clearing). -/
theorem batch_cons_none (s : SymbolIndex) (t : String × String × String)
    (rest : List (String × String × String))
    (parse : String × String × String → Option (List RawCapture))
    (h : parse t = none) :
    code_nav_index_files_batch s (t :: rest) parse
      = code_nav_index_files_batch s rest parse := by
  unfold code_nav_index_files_batch
  rw [List.filterMap_cons, h]

/-- A batch step whose parse succeeds performs exactly the clear-then-insert
of `index_file` on that file. -/
theorem batch_cons_some (s : SymbolIndex) (t : String × String × String)
    (rest : List (String × String × String))
    (parse : String × String × String → Option (List RawCapture))
    (caps : List RawCapture) (h : parse t = some caps) :
    code_nav_index_files_batch s (t :: rest) parse
      = code_nav_index_files_batch (index_file s t.1 t.2.2 (some caps)) rest parse := by
  unfold code_nav_index_files_batch
  rw [List.filterMap_cons, h]
  rfl

/-- The batch indexer preserves the dual-map invariant. -/
theorem consistent_batch {s : SymbolIndex} (hs : Consistent s)
    (files : List (String × String × String))
    (parse : String × String × String → Option (List RawCapture)) :
    Consistent (code_nav_index_files_batch s files parse) := by
  induction files generalizing s with
  | nil => exact hs
  | cons t rest ih =>
      cases h : parse t with
      | none =>
          rw [batch_cons_none s t rest parse h]
          exact ih hs
      | some caps =>
          rw [batch_cons_some s t rest parse caps h]
          exact ih (consistent_index_file hs t.1 t.2.2 (some caps))

/-- `clear_all` trivially restores the invariant. -/
theorem consistent_clear_all (s : SymbolIndex) : Consistent (clear_all s) := by
  intro f n
  constructor
  · intro h
    simp [hasFileName, clear_all] at h
  · intro r hr
    simp [clear_all] at hr

/-- The empty index satisfies the invariant. -/
theorem consistent_emptyIndex : Consistent emptyIndex := by
  intro f n
  constructor
  · intro h
    simp [hasFileName, emptyIndex] at h
  · intro r hr
    simp [emptyIndex] at hr

/-- Every operation sequence preserves the invariant. -/
theorem consistent_runOps (ops : List NavOp) :
    ∀ s : SymbolIndex, Consistent s → Consistent (runOps s ops) := by
  induction ops with
  | nil => exact fun s hs => hs
  | cons op rest ih =>
      intro s hs
      cases op with
      | opIndexFile fp lid parsed => exact ih _ (consistent_index_file hs fp lid parsed)
      | opIndexBatch files parse => exact ih _ (consistent_batch hs files parse)
      | opClearFile fp => exact ih _ (consistent_clear_file hs fp)
      | opClearAll => exact ih _ (consistent_clear_all s)

/-- The records a parse outcome contributes for a file: none on failure, the
mapped captures on success. -/
def recordsOfParse (fp lid : String) : Option (List RawCapture) → List SymbolInfo
  | none => []
  | some caps => caps.map (mkSymbolInfo fp (get_lang_family lid))

/-- After `index_file`, the records of the indexed file found in any bucket
are exactly the records of the parse outcome bearing the name of that bucket. -/
theorem indexed_fp_records {s : SymbolIndex} (hs : Consistent s) (fp lid : String)
    (parsed : Option (List RawCapture)) (n : String) :
    ((index_file s fp lid parsed).definitions n).filter (fun r => r.file_path = fp)
      = (recordsOfParse fp lid parsed).filter (fun r => r.name = n) := by
  cases parsed with
  | none =>
      rw [index_file_none, recordsOfParse]
      rw [List.filter_nil]
      exact List.filter_eq_nil_iff.mpr
        (fun r hr => by simpa using clear_file_no_records hs fp n r hr)
  | some caps =>
      rw [index_file_some, applyDefinitions_defs, List.filter_append]
      have h1 : ((clear_file s fp).definitions n).filter (fun r => r.file_path = fp) = [] :=
        List.filter_eq_nil_iff.mpr
          (fun r hr => by simpa using clear_file_no_records hs fp n r hr)
      rw [h1, List.nil_append, recordsOfParse]
      apply List.filter_eq_self.mpr
      intro r hr
      obtain ⟨c, _, hcr⟩ := List.mem_map.mp (List.mem_of_mem_filter hr)
      simp [← hcr, mkSymbolInfo]

/-- Every reverse-index entry is a non-empty name set. -/
def FDNonEmpty (s : SymbolIndex) : Prop :=
  ∀ f l, s.file_definitions f = some l → l ≠ []

/-- `clear_file` preserves non-emptiness of reverse-index entries. -/
theorem fdne_clear_file {s : SymbolIndex} (hs : FDNonEmpty s) (fp : String) :
    FDNonEmpty (clear_file s fp) := by
  intro f l h
  rw [clear_file_fdefs] at h
  by_cases hf : f = fp
  · rw [if_pos hf] at h
    cases h
  · rw [if_neg hf] at h
    exact hs f l h

/-- `index_file` preserves non-emptiness of reverse-index entries. -/
theorem fdne_index_file {s : SymbolIndex} (hs : FDNonEmpty s) (fp lid : String)
    (parsed : Option (List RawCapture)) : FDNonEmpty (index_file s fp lid parsed) := by
  cases parsed with
  | none => exact fdne_clear_file hs fp
  | some caps =>
      intro f l h
      rw [index_file_some] at h
      have hc := fdne_clear_file hs fp
      by_cases hni : (captureNames caps).isEmpty = true
      · rw [applyDefinitions_fdefs, if_pos hni] at h
        exact hc f l h
      · rw [applyDefinitions_fdefs, if_neg hni] at h
        by_cases hf : f = fp
        · rw [if_pos hf] at h
          cases h
          intro hnil
          rw [hnil] at hni
          exact hni rfl
        · rw [if_neg hf] at h
          exact hc f l h

/-- The batch indexer preserves non-emptiness of reverse-index entries. -/
theorem fdne_batch {s : SymbolIndex} (hs : FDNonEmpty s)
    (files : List (String × String × String))
    (parse : String × String × String → Option (List RawCapture)) :
    FDNonEmpty (code_nav_index_files_batch s files parse) := by
  induction files generalizing s with
  | nil => exact hs
  | cons t rest ih =>
      cases h : parse t with
      | none =>
          rw [batch_cons_none s t rest parse h]
          exact ih hs
      | some caps =>
          rw [batch_cons_some s t rest parse caps h]
          exact ih (fdne_index_file hs t.1 t.2.2 (some caps))

/-- Any operation sequence preserves non-emptiness of reverse-index entries. -/
theorem fdne_runOps (ops : List NavOp) :
    ∀ s : SymbolIndex, FDNonEmpty s → FDNonEmpty (runOps s ops) := by
  induction ops with
  | nil => exact fun s hs => hs
  | cons op rest ih =>
      intro s hs
      cases op with
      | opIndexFile fp lid parsed => exact ih _ (fdne_index_file hs fp lid parsed)
      | opIndexBatch files parse => exact ih _ (fdne_batch hs files parse)
      | opClearFile fp => exact ih _ (fdne_clear_file hs fp)
      | opClearAll => exact ih _ (fun f l h => Option.noConfusion h)

/-- The empty index has no reverse-index entries at all. -/
theorem fdne_emptyIndex : FDNonEmpty emptyIndex := by
  intro f l h
  simp [emptyIndex] at h

/-!
Claim theorems.
-/

/-- C1: Dual-map consistency: after any sequence of `index_file`,
`clear_file` and `clear_all` calls (batch indexing included) starting from
the empty index, every name in `file_definitions[f]` has at least one record
with `file_path = f` in `definitions[name]`, and conversely no record with
`file_path = f` exists under a name absent from `file_definitions[f]`. -/
theorem claim_C1_dual_map_consistency (ops : List NavOp) :
    Consistent (runOps emptyIndex ops) :=
  consistent_runOps ops emptyIndex consistent_emptyIndex

/-- Witness for C1: a concretely indexed file exercises both directions of
the invariant. -/
theorem claim_C1_dual_map_consistency_witness :
    hasFileName (runOps emptyIndex [NavOp.opIndexFile "a.py" "python"
        (some [⟨"foo", "function.definition", 1, 4, 1, 7⟩])]) "a.py" "foo" = true
    ∧ ∃ r, r ∈ (runOps emptyIndex [NavOp.opIndexFile "a.py" "python"
        (some [⟨"foo", "function.definition", 1, 4, 1, 7⟩])]).definitions "foo"
        ∧ r.file_path = "a.py" :=
  ⟨by decide,
   (claim_C1_dual_map_consistency [NavOp.opIndexFile "a.py" "python"
      (some [⟨"foo", "function.definition", 1, 4, 1, 7⟩])] "a.py" "foo").1 (by decide)⟩

/-- C2: Reindex replacement: indexing `f` twice leaves exactly the records of the second
parse outcome reachable for `f` through `find_definition`, for
every queried name and family; a failed second parse (`o2 = none`)
contributes zero records because invalidation runs first. -/
theorem claim_C2_reindex_replacement (s : SymbolIndex) (hs : Consistent s)
    (fp lid : String) (o1 o2 : Option (List RawCapture)) (name fam : String) :
    (find_definition (index_file (index_file s fp lid o1) fp lid o2) name fam).filter
        (fun r => r.file_path = fp)
      = (recordsOfParse fp lid o2).filter
          (fun r => r.name = name ∧ r.lang_family = fam) := by
  have hs1 := consistent_index_file hs fp lid o1
  rw [find_definition]
  have swap1 : ∀ l : List SymbolInfo,
      (l.filter (fun r => r.lang_family = fam)).filter (fun r => r.file_path = fp)
        = (l.filter (fun r => r.file_path = fp)).filter (fun r => r.lang_family = fam) := by
    intro l
    rw [List.filter_filter, List.filter_filter]
    exact List.filter_congr (fun x _ => by rw [Bool.and_comm])
  rw [swap1, indexed_fp_records hs1 fp lid o2 name, List.filter_filter]
  exact List.filter_congr (fun x _ => by
    by_cases h1 : x.name = name <;> by_cases h2 : x.lang_family = fam <;> simp [h1, h2])

/-- Witness for C2: reindexing a file replaces its old definition. -/
theorem claim_C2_reindex_replacement_witness :
    Consistent emptyIndex ∧
    (find_definition (index_file (index_file emptyIndex "f.py" "python"
          (some [⟨"old_func", "function.definition", 0, 4, 0, 12⟩]))
        "f.py" "python" (some [⟨"new_func", "function.definition", 0, 4, 0, 12⟩]))
        "new_func" "python").filter (fun r => r.file_path = "f.py")
      = (recordsOfParse "f.py" "python"
          (some [⟨"new_func", "function.definition", 0, 4, 0, 12⟩])).filter
          (fun r => r.name = "new_func" ∧ r.lang_family = "python") :=
  ⟨consistent_emptyIndex,
   claim_C2_reindex_replacement emptyIndex consistent_emptyIndex "f.py" "python"
     (some [⟨"old_func", "function.definition", 0, 4, 0, 12⟩])
     (some [⟨"new_func", "function.definition", 0, 4, 0, 12⟩]) "new_func" "python"⟩

/-- C4: Batch/sequential equivalence: for pairwise-distinct file paths whose
languages are registered and whose contents parse (`parse` succeeds on every
triple), the batch indexer produces exactly the state of sequential
`index_file` calls in list order. -/
theorem claim_C4_batch_sequential_equiv (s : SymbolIndex)
    (files : List (String × String × String))
    (parse : String × String × String → Option (List RawCapture))
    (hdistinct : (files.map (fun t => t.1)).Nodup)
    (hparse : ∀ t ∈ files, (parse t).isSome = true) :
    code_nav_index_files_batch s files parse
      = files.foldl (fun st t => index_file st t.1 t.2.2 (parse t)) s := by
  induction files generalizing s with
  | nil => rfl
  | cons t rest ih =>
      obtain ⟨caps, hcaps⟩ :=
        Option.isSome_iff_exists.mp (hparse t (List.mem_cons_self t rest))
      rw [List.map_cons] at hdistinct
      rw [batch_cons_some s t rest parse caps hcaps, List.foldl_cons, hcaps]
      exact ih _ hdistinct.of_cons (fun u hu => hparse u (List.mem_cons_of_mem t hu))

/-- Witness for C4: two distinct successfully-parsed files. -/
theorem claim_C4_batch_sequential_equiv_witness :
    (([("a.py", "def a(): pass", "python"), ("b.py", "def b(): pass", "python")].map
        (fun t => t.1)).Nodup) ∧
    (∀ t ∈ [("a.py", "def a(): pass", "python"), ("b.py", "def b(): pass", "python")],
        ((fun u : String × String × String =>
            if u.1 = "a.py" then some [(⟨"a", "function.definition", 0, 4, 0, 5⟩ : RawCapture)]
            else some [(⟨"b", "function.definition", 0, 4, 0, 5⟩ : RawCapture)]) t).isSome = true) ∧
    code_nav_index_files_batch emptyIndex
        [("a.py", "def a(): pass", "python"), ("b.py", "def b(): pass", "python")]
        (fun u => if u.1 = "a.py" then some [⟨"a", "function.definition", 0, 4, 0, 5⟩]
                  else some [⟨"b", "function.definition", 0, 4, 0, 5⟩])
      = [("a.py", "def a(): pass", "python"), ("b.py", "def b(): pass", "python")].foldl
          (fun st t => index_file st t.1 t.2.2
            (if t.1 = "a.py" then some [⟨"a", "function.definition", 0, 4, 0, 5⟩]
             else some [⟨"b", "function.definition", 0, 4, 0, 5⟩])) emptyIndex :=
  ⟨by decide, by decide,
   claim_C4_batch_sequential_equiv emptyIndex
     [("a.py", "def a(): pass", "python"), ("b.py", "def b(): pass", "python")]
     (fun u => if u.1 = "a.py" then some [⟨"a", "function.definition", 0, 4, 0, 5⟩]
               else some [⟨"b", "function.definition", 0, 4, 0, 5⟩])
     (by decide) (by decide)⟩

/-- C7: Family isolation: `find_definition` returns exactly the records of
the queried bucket whose family matches (the empty list when the bucket is
absent), and a symbol indexed under language `a` is invisible to queries
under a different family `b`. -/
theorem claim_C7_family_isolation :
    (∀ (s : SymbolIndex) (name fam : String),
        find_definition s name fam
          = (s.definitions name).filter (fun r => r.lang_family = fam)) ∧
    (∀ (fp lid_a lid_b name : String) (caps : List RawCapture),
        get_lang_family lid_a ≠ get_lang_family lid_b →
        find_definition (index_file emptyIndex fp lid_a (some caps)) name
          (get_lang_family lid_b) = []) := by
  constructor
  · intro s name fam
    rfl
  · intro fp la lb name caps hfam
    rw [find_definition, index_file_some, applyDefinitions_defs]
    have h0 : (clear_file emptyIndex fp).definitions name = [] := rfl
    rw [h0, List.nil_append]
    apply List.filter_eq_nil_iff.mpr
    intro r hr
    obtain ⟨c, _, hcr⟩ := List.mem_map.mp (List.mem_of_mem_filter hr)
    simp only [decide_eq_true_eq]
    intro hlf
    rw [← hcr] at hlf
    exact hfam hlf

/-- Witness for C7: python and rust are distinct families. -/
theorem claim_C7_family_isolation_witness :
    get_lang_family "python" ≠ get_lang_family "rust" ∧
    find_definition (index_file emptyIndex "f.py" "python"
        (some [⟨"shared_name", "function.definition", 0, 4, 0, 15⟩]))
      "shared_name" (get_lang_family "rust") = [] :=
  ⟨by decide,
   claim_C7_family_isolation.2 "f.py" "python" "rust" "shared_name"
     [⟨"shared_name", "function.definition", 0, 4, 0, 15⟩] (by decide)⟩

/-- C8: Clear locality: `clear_file f` leaves `file_definitions[g]` and the
records of any other file `g` untouched, removes only records whose
`file_path` is `f`, and drops the `file_definitions[f]` entry. -/
theorem claim_C8_clear_file_locality (s : SymbolIndex) (f g : String) (hne : f ≠ g) :
    ((clear_file s f).file_definitions g = s.file_definitions g) ∧
    (∀ n, ((clear_file s f).definitions n).filter (fun r => r.file_path = g)
        = (s.definitions n).filter (fun r => r.file_path = g)) ∧
    (∀ n r, r ∈ s.definitions n → r ∉ (clear_file s f).definitions n → r.file_path = f) ∧
    ((clear_file s f).file_definitions f = none) := by
  refine ⟨?_, ?_, ?_, ?_⟩
  · rw [clear_file_fdefs, if_neg (Ne.symm hne)]
  · intro n
    unfold clear_file
    cases h : s.file_definitions f with
    | none => rfl
    | some names =>
        simp only
        by_cases hc : names.contains n = true
        · rw [if_pos hc, List.filter_filter]
          refine List.filter_congr (fun x _ => ?_)
          by_cases hx : x.file_path = g
          · simp [hx, Ne.symm hne]
          · simp [hx]
        · rw [if_neg hc]
  · intro n r hr hnr
    by_contra hne2
    exact hnr (clear_file_defs_keep s f n r hr hne2)
  · rw [clear_file_fdefs, if_pos rfl]

/-- Witness for C8: clearing one file spares a same-named symbol of another. -/
theorem claim_C8_clear_file_locality_witness :
    "a.py" ≠ "b.py" ∧
    (clear_file (index_file emptyIndex "b.py" "python"
        (some [⟨"foo", "function.definition", 0, 4, 0, 7⟩])) "a.py").file_definitions "b.py"
      = (index_file emptyIndex "b.py" "python"
        (some [⟨"foo", "function.definition", 0, 4, 0, 7⟩])).file_definitions "b.py" :=
  ⟨by decide,
   (claim_C8_clear_file_locality (index_file emptyIndex "b.py" "python"
      (some [⟨"foo", "function.definition", 0, 4, 0, 7⟩])) "a.py" "b.py" (by decide)).1⟩

/-- C10: Every reverse-index entry reachable from the empty index is a
non-empty name set, and a file whose successful parse yields zero captures
ends with no `file_definitions` entry, so `code_nav_get_indexed_files` never
lists it — indistinguishable there from a never-indexed file. -/
theorem claim_C10_indexed_files_nonempty :
    (∀ (ops : List NavOp) (f : String) (l : List String),
        (runOps emptyIndex ops).file_definitions f = some l → l ≠ []) ∧
    (∀ (s : SymbolIndex) (fp lid : String),
        isIndexedFile (index_file s fp lid (some [])) fp = false) := by
  constructor
  · intro ops f l h
    exact fdne_runOps ops emptyIndex fdne_emptyIndex f l h
  · intro s fp lid
    rw [isIndexedFile, index_file_some, applyDefinitions_fdefs]
    have h1 : (captureNames ([] : List RawCapture)).isEmpty = true := rfl
    rw [if_pos h1, clear_file_fdefs, if_pos rfl]
    rfl

/-- Witness for C10: a concretely indexed file has a non-empty entry. -/
theorem claim_C10_indexed_files_nonempty_witness :
    (runOps emptyIndex [NavOp.opIndexFile "a.py" "python"
        (some [⟨"foo", "function.definition", 1, 4, 1, 7⟩])]).file_definitions "a.py"
      = some ["foo"] ∧ (["foo"] : List String) ≠ [] :=
  ⟨by decide,
   claim_C10_indexed_files_nonempty.1 [NavOp.opIndexFile "a.py" "python"
      (some [⟨"foo", "function.definition", 1, 4, 1, 7⟩])] "a.py" ["foo"] (by decide)⟩

/-- C5: Load guard: `load_index` answers `ok false` without touching the
in-memory index when the snapshot is absent, on version mismatch (deleting
the file) and on root-path mismatch (keeping the file), and answers
`ok true`, swapping in both persisted maps, exactly when the file exists,
deserializes, and version and root path both match. -/
theorem claim_C5_load_index_guard (hashFn : String → String) (s : SymbolIndex)
    (root : String) (store : Store) :
    (store (hashFn root) = none →
        code_nav_load_index hashFn s root store = .ok (false, s, store)) ∧
    (∀ p : PersistedIndex, store (hashFn root) = some (some p) →
        p.version ≠ INDEX_VERSION →
        code_nav_load_index hashFn s root store
          = .ok (false, s, fun k => if k = hashFn root then none else store k)) ∧
    (∀ p : PersistedIndex, store (hashFn root) = some (some p) →
        p.version = INDEX_VERSION → p.root_path ≠ root →
        code_nav_load_index hashFn s root store = .ok (false, s, store)) ∧
    (∀ p : PersistedIndex, store (hashFn root) = some (some p) →
        p.version = INDEX_VERSION → p.root_path = root →
        code_nav_load_index hashFn s root store
          = .ok (true, { definitions := p.definitions,
                         file_definitions := p.file_definitions }, store)) ∧
    (∀ (s2 : SymbolIndex) (st2 : Store),
        code_nav_load_index hashFn s root store = .ok (true, s2, st2) →
        ∃ p : PersistedIndex, store (hashFn root) = some (some p)
          ∧ p.version = INDEX_VERSION ∧ p.root_path = root
          ∧ s2 = { definitions := p.definitions, file_definitions := p.file_definitions }
          ∧ st2 = store) := by
  have branch_none : store (hashFn root) = none →
      code_nav_load_index hashFn s root store = .ok (false, s, store) := by
    intro h
    unfold code_nav_load_index
    simp only [h]
  have branch_err : store (hashFn root) = some none →
      code_nav_load_index hashFn s root store = .error "Failed to deserialize index" := by
    intro h
    unfold code_nav_load_index
    simp only [h]
  have branch_ver : ∀ p : PersistedIndex, store (hashFn root) = some (some p) →
      p.version ≠ INDEX_VERSION →
      code_nav_load_index hashFn s root store
        = .ok (false, s, fun k => if k = hashFn root then none else store k) := by
    intro p h hv
    unfold code_nav_load_index
    simp only [h]
    rw [if_pos hv]
  have branch_root : ∀ p : PersistedIndex, store (hashFn root) = some (some p) →
      p.version = INDEX_VERSION → p.root_path ≠ root →
      code_nav_load_index hashFn s root store = .ok (false, s, store) := by
    intro p h hv hr
    unfold code_nav_load_index
    simp only [h]
    rw [if_neg (by simp [hv]), if_pos hr]
  have branch_ok : ∀ p : PersistedIndex, store (hashFn root) = some (some p) →
      p.version = INDEX_VERSION → p.root_path = root →
      code_nav_load_index hashFn s root store
        = .ok (true, { definitions := p.definitions,
                       file_definitions := p.file_definitions }, store) := by
    intro p h hv hr
    unfold code_nav_load_index
    simp only [h]
    rw [if_neg (by simp [hv]), if_neg (by simp [hr])]
  refine ⟨branch_none, branch_ver, branch_root, branch_ok, ?_⟩
  intro s2 st2 h
  cases hst : store (hashFn root) with
  | none =>
      rw [branch_none hst] at h
      simp at h
  | some po =>
      cases po with
      | none =>
          rw [branch_err hst] at h
          simp at h
      | some p =>
          by_cases hv : p.version = INDEX_VERSION
          · by_cases hr : p.root_path = root
            · rw [branch_ok p hst hv hr] at h
              simp only [Except.ok.injEq, Prod.mk.injEq, true_and] at h
              exact ⟨p, rfl, hv, hr, h.1.symm, h.2.symm⟩
            · rw [branch_root p hst hv hr] at h
              simp at h
          · rw [branch_ver p hst hv] at h
            simp at h

/-- Witness for C5: a matching snapshot is applied, a missing one refused. -/
theorem claim_C5_load_index_guard_witness :
    ((fun _ : String => (none : Option (Option PersistedIndex))) ((fun _ => "h") "r") = none
      ∧ code_nav_load_index (fun _ => "h") emptyIndex "r"
          (fun _ => none) = .ok (false, emptyIndex, fun _ => none)) ∧
    ((fun k => if k = "h"
        then some (some (⟨2, "r", 0, fun _ => none, fun _ => [], fun _ => none⟩ : PersistedIndex))
        else (none : Option (Option PersistedIndex))) ((fun _ => "h") "r")
        = some (some ⟨2, "r", 0, fun _ => none, fun _ => [], fun _ => none⟩)
      ∧ (⟨2, "r", 0, fun _ => none, fun _ => [], fun _ => none⟩ : PersistedIndex).version
          = INDEX_VERSION
      ∧ (⟨2, "r", 0, fun _ => none, fun _ => [], fun _ => none⟩ : PersistedIndex).root_path = "r"
      ∧ code_nav_load_index (fun _ => "h") emptyIndex "r"
          (fun k => if k = "h"
            then some (some ⟨2, "r", 0, fun _ => none, fun _ => [], fun _ => none⟩)
            else none)
        = .ok (true, { definitions := fun _ => [], file_definitions := fun _ => none },
               fun k => if k = "h"
                 then some (some ⟨2, "r", 0, fun _ => none, fun _ => [], fun _ => none⟩)
                 else none)) :=
  ⟨⟨rfl, (claim_C5_load_index_guard (fun _ => "h") emptyIndex "r" (fun _ => none)).1 rfl⟩,
   ⟨rfl, rfl, rfl,
    (claim_C5_load_index_guard (fun _ => "h") emptyIndex "r"
        (fun k => if k = "h"
          then some (some ⟨2, "r", 0, fun _ => none, fun _ => [], fun _ => none⟩)
          else none)).2.2.2.1
      ⟨2, "r", 0, fun _ => none, fun _ => [], fun _ => none⟩ rfl rfl rfl⟩⟩

/-- C6: Persistence round-trip: saving, clearing, then loading under the same
root succeeds and restores both maps exactly as they were. -/
theorem claim_C6_save_load_roundtrip (hashFn : String → String) (s : SymbolIndex)
    (root : String) (ts : String → Option Int) (now : Int) (store : Store) :
    code_nav_load_index hashFn (clear_all s) root
        (code_nav_save_index hashFn s root ts now store)
      = .ok (true, s, code_nav_save_index hashFn s root ts now store) := by
  unfold code_nav_load_index code_nav_save_index
  simp [INDEX_VERSION]

/-- C9: Hybrid reference search degrades to the empty list when the text
search collaborator errors; the Tauri command still succeeds with `Ok` and
the index is untouched. -/
theorem claim_C9_hybrid_search_error_empty (s : SymbolIndex)
    (symbol_name lang_family e : String)
    (readFile : String → Option String) (parseOracle : String → Option TSTree) :
    find_references_hybrid symbol_name lang_family (.error e) readFile parseOracle = [] ∧
    code_nav_find_references_hybrid s symbol_name lang_family (.error e) readFile parseOracle
      = (.ok [], s) :=
  ⟨rfl, rfl⟩

/-- C3: Reference-validation scenarios (JavaScript/TypeScript): on
`const foo = "foo is here";` validating `foo` yields exactly the declaration
identifier and nothing inside the string; on `obj.value = value;` validating
`value` yields exactly the right-hand identifier, not the property name; in
`import { original as renamed } from "x"; renamed();` validating `original`
yields nothing and validating `renamed` yields the import binding and the
call. -/
theorem claim_C3_reference_validation_scenarios :
    validate_reference_at_line treeConstFoo srcConstFoo 1 "foo" "javascript"
        "test.js" "js_family"
      = [⟨"foo", "reference", "test.js", "js_family", 1, 7, 1, 10⟩] ∧
    validate_reference_at_line treeObjValue srcObjValue 1 "value" "javascript"
        "test.js" "js_family"
      = [⟨"value", "reference", "test.js", "js_family", 1, 13, 1, 18⟩] ∧
    validate_reference_at_line treeImportRenamed srcImportRenamed 1 "original"
        "javascript" "test.js" "js_family"
      = [] ∧
    validate_reference_at_line treeImportRenamed srcImportRenamed 1 "renamed"
        "javascript" "test.js" "js_family"
      = [⟨"renamed", "reference", "test.js", "js_family", 1, 22, 1, 29⟩,
         ⟨"renamed", "reference", "test.js", "js_family", 1, 42, 1, 49⟩] := by
  refine ⟨?_, ?_, ?_, ?_⟩ <;> decide
